import Mathlib

/-!
Verification of the Golomb-Coded Set (GCS) filter library (rust-bitcoin-gcs).

This file shallowly embeds the library's core (src/lib.rs and src/builder.rs)
into Lean: bytes are `Nat` below 256, 64-bit machine integers are `Nat` with
explicit reduction modulo 2^64 where the source can wrap, fallible code
returns `Option`/`Except`, and the two query loops of the source (which can
fail to terminate) are modelled with an explicit fuel parameter together with
lemmas showing where the fuel matters.

The bitstream codec (external crate bitstream-io) is modelled per its
big-endian semantics: bits of each byte are most-significant first, and the
reader fails once the input is exhausted. The writer buffers bits until a
byte completes and only then pushes it to the Vec; a partial final byte
still buffered when the writer is dropped is discarded, and Filter::build
drops its writer without calling byte_align, so the emitted data is
truncated at the last completed byte.
-/

namespace Gcs

/-- Reduction modulo 2^64, the wrap-around of Rust u64 arithmetic. -/
def wrap (x : Nat) : Nat := x % 2 ^ 64

/-- Left rotation of a 64-bit word, as used by SipHash. -/
def rotl (x r : Nat) : Nat := wrap ((x <<< r) ||| (x >>> (64 - r)))

/-- Little-endian interpretation of a byte list: byte i has weight 256^i. -/
def leU64 (bytes : List Nat) : Nat := bytes.foldr (fun b acc => b % 256 + 256 * acc) 0

/-- Little-endian 4-byte encoding of a 32-bit value, as produced by
LittleEndian::write_u32 in the builder. -/
def le32Bytes (x : Nat) : List Nat :=
  [x % 256, x / 256 % 256, x / 65536 % 256, x / 16777216 % 256]

/-- Value of a bit list read most-significant bit first. -/
def natOfBits (bs : List Bool) : Nat :=
  bs.foldl (fun acc b => 2 * acc + (if b then 1 else 0)) 0

/-- Big-endian bit encoding of the low `width` bits of `x` (most-significant
first), the layout used by BitWriter::write with the BE endianness. -/
def beBits (width x : Nat) : List Bool :=
  (List.range width).map (fun i => x.testBit (width - 1 - i))

/-- Bits of one byte, most-significant first (big-endian bit order). -/
def byteBits (b : Nat) : List Bool := beBits 8 (b % 256)

/-- The bit sequence a BitReader with BE endianness yields over a byte buffer. -/
def bytesToBits (bytes : List Nat) : List Bool := (bytes.map byteBits).flatten

/-- The byte buffer a BitWriter with BE endianness leaves in its Vec when
it is dropped without byte alignment (as Filter::build does at the end of
the block at lib.rs line 96): each completed byte is pushed, and trailing
bits that do not fill a byte stay buffered in the writer and are discarded
on disposal. -/
def bitsToBytes : List Bool → List Nat
  | b0 :: b1 :: b2 :: b3 :: b4 :: b5 :: b6 :: b7 :: rest =>
      natOfBits [b0, b1, b2, b3, b4, b5, b6, b7] :: bitsToBytes rest
  | _ => []

/-- One SipHash round on the state (v0, v1, v2, v3), all words modulo 2^64. -/
def sipRound (s : Nat × Nat × Nat × Nat) : Nat × Nat × Nat × Nat :=
  match s with
  | (v0, v1, v2, v3) =>
    let v0 := wrap (v0 + v1)
    let v1 := rotl v1 13
    let v1 := v1 ^^^ v0
    let v0 := rotl v0 32
    let v2 := wrap (v2 + v3)
    let v3 := rotl v3 16
    let v3 := v3 ^^^ v2
    let v0 := wrap (v0 + v3)
    let v3 := rotl v3 21
    let v3 := v3 ^^^ v0
    let v2 := wrap (v2 + v1)
    let v1 := rotl v1 17
    let v1 := v1 ^^^ v2
    let v2 := rotl v2 32
    (v0, v1, v2, v3)

/-- Absorb one 64-bit message word: xor into v3, two rounds, xor into v0. -/
def sipCompress (s : Nat × Nat × Nat × Nat) (m : Nat) : Nat × Nat × Nat × Nat :=
  match s with
  | (v0, v1, v2, v3) =>
    match sipRound (sipRound (v0, v1, v2, v3 ^^^ m)) with
    | (w0, w1, w2, w3) => (w0 ^^^ m, w1, w2, w3)

/-- The full 8-byte words of a message, as little-endian 64-bit integers. -/
def sipWords : List Nat → List Nat
  | b0 :: b1 :: b2 :: b3 :: b4 :: b5 :: b6 :: b7 :: rest =>
      leU64 [b0, b1, b2, b3, b4, b5, b6, b7] :: sipWords rest
  | _ => []

/-- The trailing bytes of a message after its full 8-byte words. -/
def sipTail : List Nat → List Nat
  | _ :: _ :: _ :: _ :: _ :: _ :: _ :: _ :: rest => sipTail rest
  | rest => rest

/-- SipHash-2-4 of a byte string with the 128-bit key (k0, k1); the keyed
hash used by the filter (siphasher crate, lib.rs lines 262-266). -/
def siphash24 (key : Nat × Nat) (data : List Nat) : Nat :=
  let k0 := wrap key.1
  let k1 := wrap key.2
  let s0 := (k0 ^^^ 0x736f6d6570736575, k1 ^^^ 0x646f72616e646f6d,
             k0 ^^^ 0x6c7967656e657261, k1 ^^^ 0x7465646279746573)
  let s1 := (sipWords data).foldl sipCompress s0
  let b := wrap (((data.length % 256) <<< 56) ||| leU64 (sipTail data))
  match sipCompress s1 b with
  | (v0, v1, v2, v3) =>
    match sipRound (sipRound (sipRound (sipRound (v0, v1, v2 ^^^ 0xff, v3)))) with
    | (w0, w1, w2, w3) => w0 ^^^ w1 ^^^ w2 ^^^ w3

/-- Multiply-and-shift reduction of lib.rs lines 257-259: (x * n) >> 64 over
a 128-bit product, mapping a uniform 64-bit x into the interval below n. -/
def reduce (x n : Nat) : Nat := (wrap x * wrap n) >>> 64

/-- The serialized GCS filter record of lib.rs lines 22-28. -/
structure Filter where
  n : Nat
  p : Nat
  modulus_np : Nat
  data : List Nat
deriving DecidableEq, Repr

/-- Hashed values of the items exactly as build computes them (lib.rs lines
58-63): each datum is SipHashed and reduced modulo N << P. -/
def hashedValues (p : Nat) (key : Nat × Nat) (data : List (List Nat)) : List Nat :=
  data.map (fun d => reduce (siphash24 key d) (wrap (data.length <<< p)))

/-- The hashed values sorted non-decreasingly (lib.rs line 64). Duplicates
are kept: Vec::sort does not deduplicate. -/
def sortedValues (p : Nat) (key : Nat × Nat) (data : List (List Nat)) : List Nat :=
  List.insertionSort (· ≤ ·) (hashedValues p key data)

/-- The Golomb-Rice encoding loop of lib.rs lines 70-95, one step per sorted
value: remainder is the delta masked by (1 << P) - 1, the quotient is the
masked-off part shifted down by P and written in unary (the while loop at
lines 86-89), then the remainder is written as P big-endian bits. The u64
subtraction v - last underflows (a panic in the source) when v < last, which
the model surfaces as `none`. Writes to the in-memory Vec never fail, so the
unwraps around them are modelled as plain list concatenation. -/
def encodeValues (p : Nat) : Nat → List Nat → Option (List Bool)
  | _, [] => some []
  | last, v :: vs =>
    if v < last then none
    else
      let remainder := (v - last) &&& (wrap (1 <<< p) - 1)
      let quotient := (v - last - remainder) >>> p
      (encodeValues p v vs).map
        (fun rest => (List.replicate quotient true ++ [false] ++ beBits p remainder) ++ rest)

/-- Filter::build of lib.rs lines 39-101. The two asserts (N at most
u32::MAX, P at most 32) are modelled as `none` (a panic); an empty item list
returns the filter with empty data before any encoding work. -/
def Filter.build (p : Nat) (key : Nat × Nat) (data : List (List Nat)) : Option Filter :=
  if data.length ≤ 4294967295 ∧ p ≤ 32 then
    let n := data.length
    let modulus := wrap (n <<< p)
    if n = 0 then some ⟨n, p, modulus, []⟩
    else (encodeValues p 0 (sortedValues p key data)).map
      (fun bits => ⟨n, p, modulus, bitsToBytes bits⟩)
  else none

/-- Filter::from_bytes of lib.rs lines 104-113: the assert P at most 32 is
modelled as `none`; the u32 argument type for N is modelled by reducing N
modulo 2^32. -/
def Filter.from_bytes (n p : Nat) (data : List Nat) : Option Filter :=
  if p ≤ 32 then some ⟨n % 2 ^ 32, p, wrap ((n % 2 ^ 32) <<< p), data⟩ else none

/-- The external consensus codec collaborator's VarInt::consensus_decode
(the bitcoin crate), per the consensus compact-size encoding the spec
names: a first byte below 0xFD is the value itself, 0xFD, 0xFE and 0xFF
prefix a 2-, 4- or 8-byte little-endian value. Returns the decoded value
and the number of bytes consumed; it does not reject non-minimal
encodings. Fails only when the buffer is too short. -/
def decodeVarInt : List Nat → Option (Nat × Nat)
  | [] => none
  | b :: rest =>
    if b % 256 < 253 then some (b % 256, 1)
    else if b % 256 = 253 then
      match rest with
      | x0 :: x1 :: _ => some (leU64 [x0, x1], 3)
      | _ => none
    else if b % 256 = 254 then
      match rest with
      | x0 :: x1 :: x2 :: x3 :: _ => some (leU64 [x0, x1, x2, x3], 5)
      | _ => none
    else
      match rest with
      | x0 :: x1 :: x2 :: x3 :: x4 :: x5 :: x6 :: x7 :: _ =>
          some (leU64 [x0, x1, x2, x3, x4, x5, x6, x7], 9)
      | _ => none

/-- VarInt::encoded_length of the bitcoin crate: the canonical (minimal)
compact-size length of a value. This is a function of the value alone, not
of the bytes the decoder actually consumed. -/
def encodedLength (n : Nat) : Nat :=
  if n < 253 then 1 else if n < 65536 then 3 else if n < 4294967296 then 5 else 9

/-- Filter::from_nbytes of lib.rs lines 116-134: decode the leading varint
(a decode failure propagates as an error), reject n >= u32::MAX (that is,
n >= 2^32 - 1) with Error::ParseFailed, and hand from_bytes the input minus
its first pos bytes - where lib.rs line 125 computes pos as
VarInt::encoded_length(n), the canonical length of the decoded value, not
the count of bytes the decoder consumed. The decoder's consumed count is
dropped, exactly as the source drops it. The outer `none` is from_bytes
panicking on P above 32. -/
def Filter.from_nbytes (p : Nat) (data : List Nat) : Option (Except Unit Filter) :=
  match decodeVarInt data with
  | none => some (Except.error ())
  | some (n, _) =>
    if 4294967295 ≤ n then some (Except.error ())
    else (Filter.from_bytes n p (data.drop (encodedLength n))).map Except.ok

/-- Outcome of one decode step of the bitstream: a decoded value with the
remaining bits, end of stream, or a computation that never finishes (the
fueled reader reports spin when its fuel runs out; the lemmas below show the
fuel only ever runs out on genuinely non-terminating inputs). -/
inductive ReadResult where
  | ok (v : Nat) (rest : List Bool)
  | eos
  | spin
deriving DecidableEq, Repr

/-- The unary-counting while loop of read_full_u64 (lib.rs lines 274-277)
exactly as written: the condition variable c is read once before the loop
and never reassigned inside it, so the body only increments the quotient.
Fuel bounds the number of iterations the model is willing to unfold. -/
def unary_count : Nat → Bool → Nat → Option Nat
  | 0, _, _ => none
  | fuel + 1, c, q => if c then unary_count fuel c (wrap (q + 1)) else some q

/-- read_full_u64 of lib.rs lines 270-284: read one bit (EndOfStream when
exhausted), run the unary loop on it, then read P bits as the remainder and
return (quotient << P) + remainder. -/
def read_full_u64 (p fuel : Nat) : List Bool → ReadResult
  | [] => .eos
  | c :: rest =>
    match unary_count fuel c 0 with
    | none => .spin
    | some q =>
      if p ≤ rest.length then
        .ok (wrap ((q <<< p) + natOfBits (rest.take p))) (rest.drop p)
      else .eos

/-- Denotation of read_full_u64, independent of fuel: the unary loop spins
forever whenever the first bit read is 1 (its condition never changes), and
with a 0 first bit the quotient is 0 and the result is just the P-bit
remainder. The bridge lemmas below tie this to the fueled model. -/
def readNext (p : Nat) : List Bool → ReadResult
  | [] => .eos
  | true :: _ => .spin
  | false :: rest =>
    if p ≤ rest.length then .ok (wrap (natOfBits (rest.take p))) (rest.drop p)
    else .eos

/-- Result of a membership query: a boolean answer, or a query that never
returns (modelled by fuel exhaustion at every fuel). -/
inductive MemberResult where
  | res (b : Bool)
  | spin
deriving DecidableEq, Repr

/-- The query target of lib.rs lines 160-161: the search term is SipHashed
and then reduced modulo the filter's P field itself (not modulo the
modulus_np field that build reduced by). -/
def queryTarget (f : Filter) (key : Nat × Nat) (data : List Nat) : Nat :=
  reduce (siphash24 key data) f.p

/-- The matching loop of Filter::is_member (lib.rs lines 164-183): while the
last value is below the target, decode the next delta (end of stream means
false), add it to the last value, answer true on an exact hit. -/
def is_member_go (p term : Nat) : Nat → Nat → List Bool → MemberResult
  | 0, _, _ => .spin
  | fuel + 1, last, bits =>
    if last < term then
      match readNext p bits with
      | .eos => .res false
      | .spin => .spin
      | .ok v rest =>
        let value := wrap (v + last)
        if value = term then .res true else is_member_go p term fuel value rest
    else .res false

/-- Filter::is_member of lib.rs lines 155-184. -/
def Filter.is_member (f : Filter) (fuel : Nat) (key : Nat × Nat) (data : List Nat) :
    MemberResult :=
  is_member_go f.p (queryTarget f key data) fuel 0 (bytesToBits f.data)

/-- Result of is_member_any: a boolean answer, the out-of-bounds index panic
of values[0] on an empty query list, or a query that never returns. -/
inductive AnyResult where
  | res (b : Bool)
  | panicked
  | spin
deriving DecidableEq, Repr

/-- The merge loop of Filter::is_member_any (lib.rs lines 212-241): while
the streamed filter value a and the current query value b differ, advance
the smaller side; running out of query values or hitting end of stream
answers false, equality answers true. -/
def is_member_any_go (p : Nat) : Nat → Nat → Nat → List Nat → List Bool → AnyResult
  | 0, _, _, _, _ => .spin
  | fuel + 1, a, b, queryRest, bits =>
    if a = b then .res true
    else if b < a then
      match queryRest with
      | q :: qs => is_member_any_go p fuel a q qs bits
      | [] => .res false
    else
      match readNext p bits with
      | .eos => .res false
      | .spin => .spin
      | .ok v rest => is_member_any_go p fuel (wrap (a + v)) b queryRest rest

/-- Filter::is_member_any of lib.rs lines 191-242: every query item is
SipHashed and reduced modulo the filter's P field (line 204), the list is
sorted, and the initial state indexes values[0] - an out-of-bounds panic
when the query list is empty. -/
def Filter.is_member_any (f : Filter) (fuel : Nat) (key : Nat × Nat)
    (data : List (List Nat)) : AnyResult :=
  let values := List.insertionSort (· ≤ ·)
    (data.map (fun d => reduce (siphash24 key d) f.p))
  match values with
  | [] => .panicked
  | v0 :: rest => is_member_any_go f.p fuel 0 v0 rest (bytesToBits f.data)

/-!
The builder (src/builder.rs). Blocks, transactions and their hashes are
parsed and computed by external collaborators (the bitcoin crate); the model
carries them as data: a transaction's txid and an input's previous txid are
32-byte identifiers as produced by the external consensus codec.
-/

/-- A transaction input as consumed by the builder: the previous output's
txid and index. -/
structure TxIn where
  prev_hash : List Nat
  prev_index : Nat
deriving DecidableEq, Repr

/-- A transaction output as consumed by the builder: its script bytes. -/
structure TxOut where
  script_pubkey : List Nat
deriving DecidableEq, Repr

/-- A transaction as consumed by the builder. -/
structure Transaction where
  txid : List Nat
  input : List TxIn
  output : List TxOut
deriving DecidableEq, Repr

/-- A block as consumed by build_basic_filter: its hash and transactions. -/
structure Block where
  bitcoin_hash : List Nat
  txdata : List Transaction
deriving DecidableEq, Repr

/-- The Builder record of builder.rs lines 12-16. -/
structure Builder where
  p : Nat
  key : Nat × Nat
  data : List (List Nat)
deriving DecidableEq, Repr

/-- Builder::new of builder.rs lines 22-28. -/
def Builder.new : Builder := ⟨0, (0, 0), []⟩

/-- Builder::set_p of builder.rs lines 54-58; the assert P at most 32 is
modelled as `none`. -/
def Builder.set_p (b : Builder) (p : Nat) : Option Builder :=
  if p ≤ 32 then some { b with p := p } else none

/-- Builder::derive_key of builder.rs lines 36-41: the key halves are the
first and second 8 bytes of the hash read as little-endian u64. Slicing
hash[0..8] and hash[8..16] panics (modelled as `none`) when the hash is
shorter than 16 bytes. -/
def Builder.derive_key (b : Builder) (hash : List Nat) : Option Builder :=
  if 16 ≤ hash.length then
    some { b with key := (leU64 (hash.take 8), leU64 ((hash.drop 8).take 8)) }
  else none

/-- Builder::add_entry of builder.rs lines 67-70: push a copy of the item. -/
def Builder.add_entry (b : Builder) (d : List Nat) : Builder :=
  { b with data := b.data ++ [d] }

/-- Builder::add_hash of builder.rs lines 84-89: append the 32 hash bytes
verbatim. -/
def Builder.add_hash (b : Builder) (hash : List Nat) : Builder :=
  b.add_entry hash

/-- Builder::add_outpoint of builder.rs lines 72-82: a 36-byte record of the
32 txid bytes followed by the index as little-endian u32. Copying into the
fixed 32-byte front slice panics (modelled as `none`) unless the txid has
exactly 32 bytes. -/
def Builder.add_outpoint (b : Builder) (txid : List Nat) (index : Nat) : Option Builder :=
  if txid.length = 32 then some (b.add_entry (txid ++ le32Bytes (index % 2 ^ 32)))
  else none

/-- Builder::build of builder.rs lines 106-108. -/
def Builder.build (b : Builder) : Option Filter :=
  Filter.build b.p b.key b.data

/-- The inner input loop of build_basic_filter (builder.rs lines 145-152):
one outpoint entry per input. -/
def addInputs (b : Builder) : List TxIn → Option Builder
  | [] => some b
  | txin :: rest => (b.add_outpoint txin.prev_hash txin.prev_index).bind
      (fun b1 => addInputs b1 rest)

/-- The per-transaction body of build_basic_filter (builder.rs lines
137-162): add the txid, then (except at index 0, the coinbase) one outpoint
per input, then each output's script bytes. -/
def addTx (b : Builder) (i : Nat) (tx : Transaction) : Option Builder :=
  let b1 := b.add_hash tx.txid
  (if i ≠ 0 then addInputs b1 tx.input else some b1).bind
    (fun b2 => some (tx.output.foldl (fun bb o => bb.add_entry o.script_pubkey) b2))

/-- The enumerated transaction loop of build_basic_filter. -/
def addTxs (b : Builder) : Nat → List Transaction → Option Builder
  | _, [] => some b
  | i, tx :: rest => (addTx b i tx).bind (fun b1 => addTxs b1 (i + 1) rest)

/-- build_basic_filter of builder.rs lines 111-165: P is set to DEFAULT_P =
20, the key is derived from the block hash, and the enumerated transaction
loop adds the items. The counting loop and reserve call (lines 119-132)
only pre-size the Vec and have no semantic effect. -/
def build_basic_filter (block : Block) : Option Filter :=
  (Builder.new.set_p 20).bind (fun b1 =>
    (b1.derive_key block.bitcoin_hash).bind (fun b2 =>
      (addTxs b2 0 block.txdata).bind (fun b3 => b3.build)))

/-!
Definitions written from the specification's words, to be compared with the
source-derived definitions above: the per-item Golomb-Rice code of spec
section 4.3 step 5 and section 6, and the item enumeration and key
derivation of the basic-filter policy of spec section 4.6.
-/

/-- Golomb-Rice code of one delta as the spec words it: unary(q) is q
one-bits then a zero-bit with q = delta >> P, followed by the remainder
delta mod 2^P as P big-endian bits. -/
def specGolombCode (p delta : Nat) : List Bool :=
  List.replicate (delta >>> p) true ++ [false] ++ beBits p (delta % 2 ^ p)

/-- The whole bitstream as the spec words it: each successive delta of the
sorted value sequence (duplicates retained), Golomb-Rice coded. -/
def specEncodeDeltas (p : Nat) : Nat → List Nat → List Bool
  | _, [] => []
  | last, v :: vs => specGolombCode p (v - last) ++ specEncodeDeltas p v vs

/-- The basic-filter key as the claim words it: the first 16 bytes of the
block hash read as two little-endian 64-bit integers. -/
def claimKey (hash : List Nat) : Nat × Nat :=
  (leU64 (hash.take 8), leU64 ((hash.drop 8).take 8))

/-- The 36-byte outpoint item as the claim words it: the previous txid
followed by the index as a little-endian u32. -/
def outpointItem (txin : TxIn) : List Nat :=
  txin.prev_hash ++ le32Bytes (txin.prev_index % 2 ^ 32)

/-- The items of one transaction as the claim words them: the txid, then
(for every transaction except the coinbase at index 0) each input's 36-byte
outpoint (previous txid followed by the index as little-endian u32), then
each output's raw script bytes. -/
def claimTxItems (i : Nat) (tx : Transaction) : List (List Nat) :=
  [tx.txid]
    ++ (if i ≠ 0 then tx.input.map outpointItem else [])
    ++ tx.output.map (fun o => o.script_pubkey)

/-- The item list of a block under the basic-filter policy, transactions
enumerated from index i. -/
def claimItemsFrom (i : Nat) : List Transaction → List (List Nat)
  | [] => []
  | tx :: rest => claimTxItems i tx ++ claimItemsFrom (i + 1) rest

/-!
Bridge lemmas between the fueled reader and its fuel-free denotation.
-/

/-- The unary-counting loop never finishes once entered with a true
condition: the condition variable is never reassigned, so no amount of fuel
reaches the exit. -/
theorem unary_count_true (fuel q : Nat) : unary_count fuel true q = none := by
  induction fuel generalizing q with
  | zero => rfl
  | succ k ih => simpa [unary_count] using ih (wrap (q + 1))

/-- With a false condition the loop exits at once with quotient 0. -/
theorem unary_count_false (fuel q : Nat) :
    unary_count (fuel + 1) false q = some q := by
  simp [unary_count]

/-- On a stream whose first bit is 0, the fueled reader agrees with the
denotation for any positive fuel. -/
theorem read_full_u64_false (p fuel : Nat) (rest : List Bool) :
    read_full_u64 p (fuel + 1) (false :: rest) = readNext p (false :: rest) := by
  simp [read_full_u64, readNext, unary_count_false]

/-- On an empty stream both readers report end of stream. -/
theorem read_full_u64_nil (p fuel : Nat) :
    read_full_u64 p fuel [] = readNext p [] := by
  rfl

/-!
The claims.
-/

/-- Claim C1: the spec asserts the round-trip property, that every item
passed to Filter::build is reported as a member by is_member on the built
filter with the same key. The code fails it: with P = 20, key (0, 0) and
the single item [0x00], build succeeds but is_member on that very item
answers false (the query reduces the hash modulo the field P instead of the
modulus N << P that build reduced by), a false negative. The fuel 100 far
exceeds the loop iterations possible on the 3-byte filter, and the `res`
constructor records that the loop exited normally. (code_bug) -/
theorem c1_roundtrip_fails :
    Option.map (fun f => f.is_member 100 (0, 0) [0]) (Filter.build 20 (0, 0) [[0]]) =
      some (.res false) := by
  decide

/-- Claim C2: the spec says both membership testers compute the search
target as reduce(siphash24(key, item), M) with M = N * 2^P, the same
mapping build applies. The code instead reduces by the filter's P field
itself: on the filter built from the single item [0x00] with P = 20 the two
mappings disagree, so the claim fails. (code_bug) -/
theorem c2_target_wrong_modulus :
    Filter.build 20 (0, 0) [[0]] = some ⟨1, 20, 1048576, [69, 173]⟩ ∧
    queryTarget ⟨1, 20, 1048576, [69, 173]⟩ (0, 0) [0] =
      reduce (siphash24 (0, 0) [0]) 20 ∧
    queryTarget ⟨1, 20, 1048576, [69, 173]⟩ (0, 0) [0] ≠
      reduce (siphash24 (0, 0) [0]) 1048576 := by
  refine ⟨by decide, rfl, by decide⟩

/-- Claim C3: the spec says read_next_value terminates on every input
bitstream, reading one bit per unary step until the first 0-bit. In the
code the loop condition is read once before the while loop and never
updated in its body, so on any stream whose first bit is 1 the loop spins
forever: no fuel ever suffices. (code_bug) -/
theorem c3_reader_diverges (p fuel : Nat) (rest : List Bool) :
    read_full_u64 p fuel (true :: rest) = .spin := by
  simp [read_full_u64, unary_count_true]

/-- Claim C4: the spec says is_member_any returns false, without faulting,
on an empty query list or on a filter with N = 0. The code has no such
guards: on the empty query list it indexes values[0] out of bounds (a
panic), and on the N = 0, P = 0 filter with one query item it answers true
(reduce modulo P = 0 sends the query value to 0, equal to the initial
streamed value). (code_bug) -/
theorem c4_empty_guards_missing :
    Filter.from_bytes 0 0 [] = some ⟨0, 0, 0, []⟩ ∧
    Filter.is_member_any ⟨0, 0, 0, []⟩ 10 (0, 0) [] = .panicked ∧
    Filter.is_member_any ⟨0, 0, 0, []⟩ 10 (0, 0) [[]] = .res true := by
  refine ⟨by decide, by decide, by decide⟩

/-- Claim C5 as stated is false in three ways. At N = 2^32 - 1 = 4294967295
(encoded [0xFE, FF, FF, FF, FF]), where the claim promises success, the
code fails: its guard is n >= u32::MAX, one value stricter than the claimed
n >= 2^32 (and the error is Error::ParseFailed; no InvalidLength kind
exists). At P = 33 from_bytes panics instead of returning a filter. And on
the non-minimally encoded varint [0xFD, 0x05, 0x00] followed by [0xAB] the
decode succeeds with N = 5 having consumed 3 bytes, yet the returned
filter's data is [0x05, 0x00, 0xAB], not the bytes [0xAB] after the varint:
lib.rs line 125 splits the buffer at VarInt::encoded_length(5) = 1, the
canonical length of the value, not at the consumed count. (corrected:
counterexample) -/
theorem c5_counterexample :
    Filter.from_nbytes 20 [254, 255, 255, 255, 255] = some (Except.error ()) ∧
    Filter.from_nbytes 33 [0] = none ∧
    decodeVarInt [253, 5, 0, 171] = some (5, 3) ∧
    Filter.from_nbytes 20 [253, 5, 0, 171] =
      some (Except.ok ⟨5, 20, 5242880, [5, 0, 171]⟩) ∧
    List.drop 3 [253, 5, 0, 171] ≠ [5, 0, 171] := by
  refine ⟨rfl, rfl, rfl, rfl, by decide⟩

/-- Claim C5 amended: for every P at most 32 and every input buffer whose
leading varint decodes successfully to N, from_nbytes fails with
ParseFailed exactly when N is at least 2^32 - 1, and otherwise returns the
filter with that N, the caller-supplied P, and data equal to the input
minus its first encoded_length(N) bytes - the canonical varint length of
the value, which coincides with the bytes after the varint only when the
varint was minimally encoded. (corrected) -/
theorem c5_amended (p : Nat) (data : List Nat) (n len : Nat) (hp : p ≤ 32)
    (hdec : decodeVarInt data = some (n, len)) :
    Filter.from_nbytes p data =
      if 4294967295 ≤ n then some (Except.error ())
      else some (Except.ok ⟨n, p, wrap (n <<< p), data.drop (encodedLength n)⟩) := by
  unfold Filter.from_nbytes
  rw [hdec]
  by_cases h : 4294967295 ≤ n
  · simp [h]
  · have hmod : n % 4294967296 = n := Nat.mod_eq_of_lt (by omega)
    simp [Filter.from_bytes, h, hp, hmod]

/-- Witness for the amended claim C5 at P = 20 on the buffer [5, 9], whose
leading varint is the single byte 5. -/
theorem c5_amended_witness :
    20 ≤ 32 ∧ decodeVarInt [5, 9] = some (5, 1) ∧
    Filter.from_nbytes 20 [5, 9] =
      (if 4294967295 ≤ 5 then some (Except.error ())
       else some (Except.ok ⟨5, 20, wrap (5 <<< 20), List.drop (encodedLength 5) [5, 9]⟩)) :=
  ⟨by decide, by decide, c5_amended 20 [5, 9] 5 1 (by decide) (by decide)⟩

/-- Claim C6 as stated is false: it says that on a filter with N at least 1
a query whose computed target is 0 is answered true exactly when the first
decoded value is 0. On the filter with N = 1, P = 0 and data [0x00] the
first decoded value is 0 and (with P = 0 the reduction sends every query
hash to 0) the target is 0, yet is_member answers false: its loop guard
last < target fails immediately at last = target = 0 and the function falls
through to false. (corrected: counterexample) -/
theorem c6_counterexample :
    Filter.from_bytes 1 0 [0] = some ⟨1, 0, 1, [0]⟩ ∧
    1 ≤ Filter.n ⟨1, 0, 1, [0]⟩ ∧
    queryTarget ⟨1, 0, 1, [0]⟩ (0, 0) [5] = 0 ∧
    readNext (Filter.p ⟨1, 0, 1, [0]⟩) (bytesToBits (Filter.data ⟨1, 0, 1, [0]⟩)) =
      .ok 0 (List.replicate 7 false) ∧
    Filter.is_member ⟨1, 0, 1, [0]⟩ 100 (0, 0) [5] = .res false := by
  refine ⟨by decide, by decide, by decide, by decide, by decide⟩

/-- Claim C6 amended: for every filter with N at least 1 and every queried
item whose computed target value is 0, is_member returns false regardless
of the filter's contents: the loop condition last < target already fails at
last = 0. (corrected) -/
theorem c6_amended (f : Filter) (fuel : Nat) (key : Nat × Nat) (item : List Nat)
    (_hn : 1 ≤ f.n) (ht : queryTarget f key item = 0) :
    f.is_member (fuel + 1) key item = .res false := by
  simp [Filter.is_member, is_member_go, ht]

/-- Witness for the amended claim C6 on the N = 1, P = 0 filter. -/
theorem c6_amended_witness :
    1 ≤ Filter.n ⟨1, 0, 1, [0]⟩ ∧
    queryTarget ⟨1, 0, 1, [0]⟩ (0, 0) [5] = 0 ∧
    Filter.is_member ⟨1, 0, 1, [0]⟩ 100 (0, 0) [5] = .res false :=
  ⟨by decide, by decide, c6_amended ⟨1, 0, 1, [0]⟩ 99 (0, 0) [5] (by decide) (by decide)⟩

/-- Sorting is canonical: two lists that are permutations of each other
have the same insertion sort. -/
theorem insertionSort_eq_of_perm {l₁ l₂ : List Nat} (h : l₁.Perm l₂) :
    List.insertionSort (· ≤ ·) l₁ = List.insertionSort (· ≤ ·) l₂ :=
  List.eq_of_perm_of_sorted
    ((List.perm_insertionSort _ l₁).trans (h.trans (List.perm_insertionSort _ l₂).symm))
    (List.sorted_insertionSort _ l₁) (List.sorted_insertionSort _ l₂)

/-- Build is invariant under permutation of the input items: the whole
filter, not just its data bytes, is identical. -/
theorem build_perm (p : Nat) (key : Nat × Nat) {l₁ l₂ : List (List Nat)}
    (h : l₁.Perm l₂) : Filter.build p key l₁ = Filter.build p key l₂ := by
  have hlen : l₁.length = l₂.length := h.length_eq
  have hvals : sortedValues p key l₁ = sortedValues p key l₂ := by
    apply insertionSort_eq_of_perm
    unfold hashedValues
    rw [hlen]
    exact h.map _
  unfold Filter.build
  rw [hvals, hlen]

/-- Claim C7: for every P at most 32, every key and every item list,
building from any permutation of the same item multiset yields
byte-identical filter data, because sorting the hashed values establishes a
canonical order. (confirmed) -/
theorem c7_sort_independence (p : Nat) (key : Nat × Nat) (l₁ l₂ : List (List Nat))
    (_hp : p ≤ 32) (hperm : l₁.Perm l₂) :
    Option.map Filter.data (Filter.build p key l₁) =
      Option.map Filter.data (Filter.build p key l₂) := by
  rw [build_perm p key hperm]

/-- Witness for claim C7 on the two orderings of the items [1] and [2]. -/
theorem c7_sort_independence_witness :
    20 ≤ 32 ∧ List.Perm [[1], [2]] [[2], [1]] ∧
    Option.map Filter.data (Filter.build 20 (0, 0) [[1], [2]]) =
      Option.map Filter.data (Filter.build 20 (0, 0) [[2], [1]]) :=
  ⟨by decide, by decide, c7_sort_independence 20 (0, 0) _ _ (by decide) (by decide)⟩

/-- On a sorted value list the encoder never underflows and produces
exactly the spec's Golomb-Rice stream: the bitmask (1 << P) - 1 is the
remainder modulo 2^P and the shifted difference is the quotient. -/
theorem encodeValues_sorted (p : Nat) (hp : p ≤ 32) :
    ∀ (l : List Nat) (last : Nat), List.Sorted (· ≤ ·) (last :: l) →
      encodeValues p last l = some (specEncodeDeltas p last l) := by
  intro l
  induction l with
  | nil => intro last _; rfl
  | cons v vs ih =>
    intro last hsort
    have hlv : last ≤ v := (List.sorted_cons.mp hsort).1 v (by simp)
    have htail : List.Sorted (· ≤ ·) (v :: vs) := (List.sorted_cons.mp hsort).2
    have hmask : wrap (1 <<< p) - 1 = 2 ^ p - 1 := by
      have hlt : 2 ^ p < 2 ^ 64 := Nat.pow_lt_pow_right (by norm_num) (by omega)
      rw [Nat.shiftLeft_eq, one_mul, wrap, Nat.mod_eq_of_lt hlt]
    have hrem : (v - last) &&& (2 ^ p - 1) = (v - last) % 2 ^ p :=
      Nat.and_pow_two_sub_one_eq_mod _ p
    have hquot : (v - last - (v - last) % 2 ^ p) >>> p = (v - last) >>> p := by
      have hdm := Nat.div_add_mod (v - last) (2 ^ p)
      have h2 : v - last - (v - last) % 2 ^ p = 2 ^ p * ((v - last) / 2 ^ p) := by omega
      rw [h2, Nat.shiftRight_eq_div_pow, Nat.shiftRight_eq_div_pow,
        Nat.mul_div_cancel_left _ (Nat.pos_pow_of_pos p (by norm_num))]
    rw [encodeValues, if_neg (Nat.not_lt.mpr hlv)]
    simp [hmask, hrem, hquot, ih v htail, specEncodeDeltas, specGolombCode]

/-- The head 0 prepended to any sorted list of naturals is still sorted. -/
theorem sorted_zero_cons (l : List Nat) (h : List.Sorted (· ≤ ·) l) :
    List.Sorted (· ≤ ·) (0 :: l) := by
  rw [List.sorted_cons]
  exact ⟨fun b _ => Nat.zero_le b, h⟩

/-- The sorted value list of build, with the initial last value 0 in front,
is sorted. -/
theorem sortedValues_sorted (p : Nat) (key : Nat × Nat) (items : List (List Nat)) :
    List.Sorted (· ≤ ·) (0 :: sortedValues p key items) :=
  sorted_zero_cons _ (List.sorted_insertionSort _ _)

/-- Claim C10: for every P at most 32, every key and every item list with
at most 2^32 - 1 items, Filter::build completes without failing: the
sorted order makes every per-item subtraction safe, and the in-memory
bitstream writes always succeed. (confirmed) -/
theorem c10_build_total (p : Nat) (key : Nat × Nat) (items : List (List Nat))
    (hp : p ≤ 32) (hn : items.length ≤ 4294967295) :
    ∃ f, Filter.build p key items = some f := by
  unfold Filter.build
  rw [if_pos ⟨hn, hp⟩]
  by_cases h0 : items.length = 0
  · rw [if_pos h0]
    exact ⟨_, rfl⟩
  · rw [if_neg h0,
      encodeValues_sorted p hp (sortedValues p key items) 0
        (sortedValues_sorted p key items)]
    exact ⟨_, rfl⟩

/-- Witness for claim C10 at P = 20, key (0, 0), items [[0], [1]]. -/
theorem c10_build_total_witness :
    20 ≤ 32 ∧ List.length [[0], [1]] ≤ 4294967295 ∧
    ∃ f, Filter.build 20 (0, 0) [[0], [1]] = some f :=
  ⟨by decide, by decide, c10_build_total 20 (0, 0) [[0], [1]] (by decide) (by decide)⟩

/-- The byte layout claim C8 asserts for the stream: chunked into bytes
with the final partial byte zero-padded, as it would have been had the
writer been byte-aligned before disposal. -/
def specPaddedBytes : List Bool → List Nat
  | [] => []
  | b0 :: b1 :: b2 :: b3 :: b4 :: b5 :: b6 :: b7 :: rest =>
      natOfBits [b0, b1, b2, b3, b4, b5, b6, b7] :: specPaddedBytes rest
  | rest => [natOfBits (rest ++ List.replicate (8 - rest.length) false)]

/-- Claim C8 as stated is false in its final clause: the delta stream is
indeed unary quotient then P-bit big-endian remainder over the sorted
values with duplicates retained, but the final byte is not zero-padded.
Filter::build drops its BitWriter (end of the block at lib.rs line 96)
without calling byte_align, and bitstream-io discards a buffered partial
byte on disposal, so the output is truncated at the last completed byte:
the single item [0x00] at P = 20 yields a 21-bit stream and build emits
the two bytes [0x45, 0xAD], where the claim's zero-padded layout of the
same stream would be [0x45, 0xAD, 0x00]. (corrected: counterexample) -/
theorem c8_counterexample :
    Option.map Filter.data (Filter.build 20 (0, 0) [[0]]) = some [69, 173] ∧
    specPaddedBytes (specEncodeDeltas 20 0 (sortedValues 20 (0, 0) [[0]])) =
      [69, 173, 0] ∧
    ([69, 173] : List Nat) ≠ [69, 173, 0] := by
  refine ⟨by decide, by decide, by decide⟩

/-- Claim C8 amended: the encoder writes, for the non-decreasing sorted
sequence of hashed values with duplicates retained, each successive delta
as a unary quotient delta >> P (that many one-bits then a zero-bit)
followed by the remainder delta mod 2^P as P big-endian bits; trailing
bits that do not complete a final byte are discarded when the writer is
dropped without byte alignment (bitsToBytes), not zero-padded. (corrected) -/
theorem c8_encoder_layout (p : Nat) (key : Nat × Nat) (items : List (List Nat))
    (hp : p ≤ 32) (hn : items.length ≤ 4294967295) :
    Option.map Filter.data (Filter.build p key items) =
      some (bitsToBytes (specEncodeDeltas p 0 (sortedValues p key items))) := by
  unfold Filter.build
  rw [if_pos ⟨hn, hp⟩]
  by_cases h0 : items.length = 0
  · have hnil : items = [] := List.length_eq_zero.mp h0
    subst hnil
    rfl
  · rw [if_neg h0,
      encodeValues_sorted p hp (sortedValues p key items) 0
        (sortedValues_sorted p key items)]
    rfl

/-- Witness for the amended claim C8 at P = 20, key (0, 0), items [[0]]. -/
theorem c8_encoder_layout_witness :
    20 ≤ 32 ∧ List.length [[0]] ≤ 4294967295 ∧
    Option.map Filter.data (Filter.build 20 (0, 0) [[0]]) =
      some (bitsToBytes (specEncodeDeltas 20 0 (sortedValues 20 (0, 0) [[0]]))) :=
  ⟨by decide, by decide, c8_encoder_layout 20 (0, 0) [[0]] (by decide) (by decide)⟩

/-- The input loop appends exactly one 36-byte outpoint entry per input, in
order, when every previous txid has 32 bytes. -/
theorem addInputs_eq (ins : List TxIn) : ∀ (b : Builder),
    (∀ txin ∈ ins, txin.prev_hash.length = 32) →
    addInputs b ins = some { b with data := b.data ++ ins.map outpointItem } := by
  induction ins with
  | nil => intro b _; simp [addInputs]
  | cons txin rest ih =>
    intro b h
    have h1 : txin.prev_hash.length = 32 := h txin (by simp)
    simp only [addInputs, Builder.add_outpoint, if_pos h1, Option.some_bind]
    rw [ih _ (fun t ht => h t (by simp [ht]))]
    simp [Builder.add_entry, outpointItem]

/-- The output loop appends exactly each script in order. -/
theorem foldl_add_entry (outs : List TxOut) : ∀ (b : Builder),
    outs.foldl (fun bb o => bb.add_entry o.script_pubkey) b =
      { b with data := b.data ++ outs.map (fun o => o.script_pubkey) } := by
  induction outs with
  | nil => intro b; simp
  | cons o rest ih =>
    intro b
    rw [List.foldl_cons, ih]
    simp [Builder.add_entry]

/-- One transaction contributes exactly the claim's item list for its
index: txid, then outpoints unless it is the coinbase at index 0, then
output scripts. -/
theorem addTx_eq (b : Builder) (i : Nat) (tx : Transaction)
    (h : ∀ txin ∈ tx.input, txin.prev_hash.length = 32) :
    addTx b i tx = some { b with data := b.data ++ claimTxItems i tx } := by
  by_cases hi : i ≠ 0 <;>
    [simp only [addTx, if_pos hi, Builder.add_hash, addInputs_eq _ _ h, Option.some_bind];
     simp only [addTx, if_neg hi, Builder.add_hash, Option.some_bind]] <;>
    rw [foldl_add_entry] <;>
    simp [Builder.add_entry, claimTxItems, hi]

/-- The enumerated transaction loop accumulates exactly the claim's items. -/
theorem addTxs_eq (l : List Transaction) : ∀ (b : Builder) (i : Nat),
    (∀ tx ∈ l, ∀ txin ∈ tx.input, txin.prev_hash.length = 32) →
    addTxs b i l = some { b with data := b.data ++ claimItemsFrom i l } := by
  induction l with
  | nil => intro b i _; simp [addTxs, claimItemsFrom]
  | cons tx rest ih =>
    intro b i h
    simp [addTxs, addTx_eq b i tx (h tx (by simp)), claimItemsFrom,
      ih _ (i + 1) (fun t ht => h t (by simp [ht]))]

/-- Claim C9: build_basic_filter builds with P = 20, a key read from the
first 16 bytes of the block hash as two little-endian u64, and adds exactly
each transaction's txid, each input's 36-byte outpoint for every
transaction except the coinbase at index 0, and each output's raw script
bytes, in block order. The hypotheses record that the external consensus
codec hands the builder 32-byte identifiers. (confirmed) -/
theorem c9_basic_filter (block : Block)
    (hh : 16 ≤ block.bitcoin_hash.length)
    (hin : ∀ tx ∈ block.txdata, ∀ txin ∈ tx.input, txin.prev_hash.length = 32) :
    build_basic_filter block =
      Filter.build 20 (claimKey block.bitcoin_hash) (claimItemsFrom 0 block.txdata) := by
  simp [build_basic_filter, Builder.new, Builder.set_p, Builder.derive_key, hh,
    addTxs_eq _ _ _ hin, Builder.build, claimKey]

/-- A concrete two-transaction block for the claim C9 witness: a coinbase
whose input would be skipped, and a second transaction with one input. -/
def witnessBlock : Block :=
  { bitcoin_hash := List.range 32
    txdata :=
      [ { txid := List.range 32, input := [], output := [⟨[0, 81]⟩] },
        { txid := (List.range 32).map (fun i => i + 1),
          input := [⟨List.range 32, 7⟩], output := [] } ] }

/-- Witness for claim C9 on the concrete two-transaction block. -/
theorem c9_basic_filter_witness :
    16 ≤ witnessBlock.bitcoin_hash.length ∧
    (∀ tx ∈ witnessBlock.txdata, ∀ txin ∈ tx.input, txin.prev_hash.length = 32) ∧
    build_basic_filter witnessBlock =
      Filter.build 20 (claimKey witnessBlock.bitcoin_hash)
        (claimItemsFrom 0 witnessBlock.txdata) :=
  ⟨by decide, by decide, c9_basic_filter witnessBlock (by decide) (by decide)⟩

end Gcs
